import Mathlib

/-!
Verification of the header-injection and lifecycle-management core of
tigris-boto3-ext.

The development shallowly embeds `tigris_boto3_ext/_internal.py`
(`HeaderInjector`, the module-level `_handler_registry`),
`tigris_boto3_ext/context_managers.py` (`TigrisSnapshot` construction and
scope exit) and `tigris_boto3_ext/decorators.py` (`forked_from`).

Modelling choices:
- Python dicts used as header maps are embedded as insertion-ordered
  association lists (`HeaderMap`) with dict-style assignment (overwrite in
  place, append when new).
- The global `_handler_registry` dict is embedded extensionally as a partial
  map `RegistryKey → Option RegEntry`; no claim depends on its iteration
  order, only on per-key lookup, assignment and deletion.
- Handler closures created by `_create_handler` are identified by a fresh
  natural number drawn from a counter; calls into the external boto3 event
  system (`client.meta.events.register` / `unregister`) are recorded in a
  trace, from which the event system's installed-callback state is derived.
- `register` / `unregister` are embedded statement by statement; the
  external event-system call may fail (flag `callOk`), and a failure aborts
  the remaining statements of the Python method body, exactly as a raised
  exception would.
-/

/-! ### Header maps (Python `dict[str, str]`) -/

abbrev HeaderMap := List (String × String)

/-- Python dict assignment `d[k] = v`: overwrite the existing binding in
place, append at the end when the key is new. -/
def dictSet : HeaderMap → String → String → HeaderMap
  | [], k, v => [(k, v)]
  | p :: rest, k, v => if p.1 = k then (k, v) :: rest else p :: dictSet rest k v

/-- Python `d.get(k)`. -/
def dictGet : HeaderMap → String → Option String
  | [], _ => none
  | p :: rest, k => if p.1 = k then some p.2 else dictGet rest k

/-- Python `d.update(other)`: fold the second dict into the first, overwriting
colliding keys and appending new ones. -/
def dictUpdate (d other : HeaderMap) : HeaderMap :=
  other.foldl (fun acc p => dictSet acc p.1 p.2) d

/-! ### The global handler registry (`_internal._handler_registry`) -/

/-- Registry key: `(id(client), event_name)`, from `HeaderInjector.__init__`. -/
abbrev RegistryKey := Nat × String

/-- Registry value: the tuple `(handler_function, reference_count, headers_dict)`
stored in `_handler_registry`; the handler closure is identified by a number. -/
structure RegEntry where
  handler : Nat
  refCount : Nat
  headers : HeaderMap
deriving DecidableEq

/-- One call made to the external boto3 event system:
`events.register(event_name, handler)` when `isRegisterCall` is true,
`events.unregister(event_name, handler)` otherwise.  The client the events
object belongs to is recorded as well. -/
structure EventsCall where
  isRegisterCall : Bool
  clientId : Nat
  eventName : String
  handler : Nat
deriving DecidableEq

/-- The `_handler_registry` dict, embedded extensionally by key. -/
abbrev Registry := RegistryKey → Option RegEntry

def emptyRegistry : Registry := fun _ => none

/-- Python `_handler_registry[key] = entry`. -/
def setEntry (r : Registry) (k : RegistryKey) (ent : RegEntry) : Registry :=
  fun k' => if k' = k then some ent else r k'

/-- Python `del _handler_registry[key]`. -/
def removeEntry (r : Registry) (k : RegistryKey) : Registry :=
  fun k' => if k' = k then none else r k'

/-- Process state: registry contents, the trace of calls made to the external
event system, and the supply of fresh handler-closure identities. -/
structure RegState where
  reg : Registry
  calls : List EventsCall
  nextHandler : Nat

def emptyState : RegState := ⟨emptyRegistry, [], 0⟩

/-! ### HeaderInjector -/

/-- `HeaderInjector`: a client, an event-name pattern, and the private headers
to inject (`self.headers`). -/
structure HeaderInjector where
  clientId : Nat
  eventName : String
  headers : HeaderMap
deriving DecidableEq

/-- `self._registry_key = (id(client), event_name)`. -/
def HeaderInjector.registryKey (i : HeaderInjector) : RegistryKey :=
  (i.clientId, i.eventName)

/-- `_internal.create_header_injector`: event name is
`"before-sign.s3." + operation`, headers are copied in via `set_headers`. -/
def create_header_injector (clientId : Nat) (operation : String)
    (headers : HeaderMap) : HeaderInjector :=
  ⟨clientId, "before-sign.s3." ++ operation, headers⟩

/-- `_internal.create_multi_operation_injector`. -/
def create_multi_operation_injector (clientId : Nat) (operations : List String)
    (headers : HeaderMap) : List HeaderInjector :=
  operations.map (fun op => create_header_injector clientId op headers)

/-- Python truthiness of an `Optional[str]`: `None` and `""` are falsy. -/
def truthy : Option String → Bool
  | none => false
  | some s => !(s == "")

/-! ### register / unregister (`_internal.HeaderInjector`) -/

/-- `HeaderInjector.register`, embedded statement by statement.  `callOk`
states whether the external `events.register` call would succeed; when it
raises, the statements after it (the registry commit on the last line of the
branch) do not run, and the state at the point of the raise is returned as the
error value. -/
def registerE (inj : HeaderInjector) (callOk : Bool) (s : RegState) :
    Except RegState RegState :=
  match s.reg inj.registryKey with
  | some ent =>
      -- shared_headers.update(self.headers); store (handler, ref_count + 1, shared_headers)
      let ent1 := RegEntry.mk ent.handler (ent.refCount + 1) (dictUpdate ent.headers inj.headers)
      .ok { s with reg := setEntry s.reg inj.registryKey ent1 }
  | none =>
      -- shared_headers = self.headers.copy(); handler = self._create_handler(shared_headers)
      let handler := s.nextHandler
      let s1 : RegState := { s with nextHandler := s.nextHandler + 1 }
      -- self.client.meta.events.register(self.event_name, handler)
      if callOk then
        let s2 : RegState :=
          { s1 with calls := s1.calls ++ [⟨true, inj.clientId, inj.eventName, handler⟩] }
        -- _handler_registry[key] = (handler, 1, shared_headers)
        .ok { s2 with reg := setEntry s2.reg inj.registryKey (RegEntry.mk handler 1 inj.headers) }
      else
        .error s1

/-- `HeaderInjector.unregister`, embedded statement by statement.  `callOk`
states whether the external `events.unregister` call would succeed; when it
raises, the `del` on the following line does not run. -/
def unregisterE (inj : HeaderInjector) (callOk : Bool) (s : RegState) :
    Except RegState RegState :=
  match s.reg inj.registryKey with
  | none => .ok s  -- not registered: return
  | some ent =>
      if 1 < ent.refCount then
        -- still nested: store (handler, ref_count - 1, shared_headers)
        let ent1 := RegEntry.mk ent.handler (ent.refCount - 1) ent.headers
        .ok { s with reg := setEntry s.reg inj.registryKey ent1 }
      else if callOk then
        -- self.client.meta.events.unregister(self.event_name, handler)
        let s1 : RegState :=
          { s with calls := s.calls ++ [⟨false, inj.clientId, inj.eventName, ent.handler⟩] }
        -- del _handler_registry[key]
        .ok { s1 with reg := removeEntry s1.reg inj.registryKey }
      else
        .error s

/-- Collapse an `Except` outcome to the state it carries. -/
def runE : Except RegState RegState → RegState
  | .ok s => s
  | .error s => s

def isErr : Except RegState RegState → Bool
  | .ok _ => false
  | .error _ => true

/-- One `register()` or `unregister()` call in a sequence; the flag records
whether the external event-system call, if reached, succeeds. -/
inductive Op where
  | reg (inj : HeaderInjector) (ok : Bool)
  | unreg (inj : HeaderInjector) (ok : Bool)
deriving DecidableEq

def Op.inj : Op → HeaderInjector
  | .reg i _ => i
  | .unreg i _ => i

def Op.ok : Op → Bool
  | .reg _ b => b
  | .unreg _ b => b

def Op.isRegOp : Op → Bool
  | .reg _ _ => true
  | .unreg _ _ => false

def stepE (s : RegState) (op : Op) : Except RegState RegState :=
  match op with
  | .reg inj ok => registerE inj ok s
  | .unreg inj ok => unregisterE inj ok s

/-- Execute one call; a raised exception leaves the process state as it was at
the point of the raise (the caller may catch it and continue). -/
def step (s : RegState) (op : Op) : RegState := runE (stepE s op)

/-- Execute a sequence of `register()` / `unregister()` calls. -/
def run (s : RegState) (ops : List Op) : RegState := ops.foldl step s

def regOps (injs : List HeaderInjector) : List Op :=
  injs.map (fun i => Op.reg i true)

def unregOps (injs : List HeaderInjector) : List Op :=
  injs.map (fun i => Op.unreg i true)

/-! ### The external event system's view -/

/-- Remove the first occurrence of an element (the event system detaching the
given callback). -/
def removeOne : List (Nat × String × Nat) → (Nat × String × Nat) → List (Nat × String × Nat)
  | [], _ => []
  | x :: rest, t => if x = t then rest else x :: removeOne rest t

/-- The callbacks currently attached to the event system, replaying the call
trace: `events.register` attaches `(client, event, handler)`,
`events.unregister` detaches it. -/
def eventSystemState (calls : List EventsCall) : List (Nat × String × Nat) :=
  calls.foldl
    (fun acc call =>
      if call.isRegisterCall then acc ++ [(call.clientId, call.eventName, call.handler)]
      else removeOne acc (call.clientId, call.eventName, call.handler))
    []

/-- The attached callbacks restricted to one (client, event-name) key. -/
def keyFilter (c : Nat) (e : String) (l : List (Nat × String × Nat)) :
    List (Nat × String × Nat) :=
  l.filter (fun t => decide (t.1 = c ∧ t.2.1 = e))

/-- The callbacks attached to the event system for one registry key. -/
def installedFor (calls : List EventsCall) (c : Nat) (e : String) :
    List (Nat × String × Nat) :=
  keyFilter c e (eventSystemState calls)

/-- Invoking the callback installed for a key on an outgoing request
(`_create_handler`'s closure: for each name/value in the shared headers dict,
`request.headers[name] = value`).  The closure reads the registry entry's
shared header dict, so it sees headers merged after it was created. -/
def invokeInstalledHandler (s : RegState) (k : RegistryKey) (req : HeaderMap) :
    HeaderMap :=
  match s.reg k with
  | some ent => ent.headers.foldl (fun r p => dictSet r p.1 p.2) req
  | none => req

/-- The reference count the registry holds for a key (0 when absent). -/
def cnt (s : RegState) (k : RegistryKey) : Nat :=
  match s.reg k with
  | some ent => ent.refCount
  | none => 0

/-! ### TigrisSnapshot (`context_managers.py`) -/

/-- The read-style operations pinned to a snapshot version
(`TigrisSnapshot.__init__`, `snapshot_ops`). -/
def snapshot_ops : List String :=
  ["GetObject", "ListObjectsV2", "HeadObject", "ListObjects"]

/-- The injectors a `TigrisSnapshot(client, bucket_name, snapshot_version)`
constructs (`self._injectors`): always the ListBuckets injector carrying
`X-Tigris-Snapshot: bucket_name`; when `snapshot_version` is truthy, also one
injector per read-style operation carrying `X-Tigris-Snapshot-Version`. -/
def snapshotInjectors (clientId : Nat) (bucket_name : String)
    (snapshot_version : Option String) : List HeaderInjector :=
  let listInjector :=
    create_header_injector clientId "ListBuckets" [("X-Tigris-Snapshot", bucket_name)]
  if truthy snapshot_version then
    listInjector ::
      create_multi_operation_injector clientId snapshot_ops
        [("X-Tigris-Snapshot-Version", snapshot_version.getD "")]
  else
    [listInjector]

/-- `TigrisSnapshot.__exit__` (and any multi-injector scope exit): a plain
`for injector in self._injectors: injector.unregister()` loop.  Each injector
is paired with the flag saying whether its external `events.unregister` call,
if reached, succeeds; a raised exception propagates out of the loop at once. -/
def exitScope (injectors : List (HeaderInjector × Bool)) (s : RegState) :
    Except RegState RegState :=
  match injectors with
  | [] => .ok s
  | (i, ok) :: rest =>
    match unregisterE i ok s with
    | .ok t => exitScope rest t
    | .error t => .error t

/-- The headers a `TigrisFork(client, source_bucket, snapshot_version)` injects
on CreateBucket (`TigrisFork.__init__`). -/
def forkHeaders (source_bucket : String) (snapshot_version : Option String) :
    HeaderMap :=
  let h : HeaderMap := [("X-Tigris-Fork-Source-Bucket", source_bucket)]
  if truthy snapshot_version then
    dictSet h "X-Tigris-Fork-Source-Bucket-Snapshot" (snapshot_version.getD "")
  else h

/-! ### Fork-by-name flow (`decorators.forked_from`) -/

/-- A Python `ValueError`, the input-validation error kind of this library. -/
inductive ForkError where
  | valueError (msg : String)
deriving DecidableEq

/-- A delegated storage operation performed against the external client during
a fork flow: the snapshot-list query made while resolving a snapshot name, or
the wrapped bucket creation (with the headers the active fork scope injects). -/
inductive DelegatedOp where
  | listSnapshotsQuery (source_bucket : String)
  | createBucket (bucket : String) (injectedHeaders : HeaderMap)
deriving DecidableEq

/-- Outcome of one fork-creation flow: the delegated operations performed, in
order, and the final result. -/
structure ForkRun where
  ops : List DelegatedOp
  result : Except ForkError Unit

/-- Modelled from the spec: `get_snapshot_version_by_name` is imported from
`helpers` by `decorators.forked_from` and exercised by the integration tests,
but no definition of it appears in `helpers.py` in the source tree.  Per the
spec, it queries the source bucket's snapshot list and resolves a
human-readable snapshot name to its version identifier, yielding nothing when
no snapshot with that name exists.  The source bucket's snapshot list is
passed in as name/version pairs. -/
def get_snapshot_version_by_name (snapshots : List (String × String))
    (snapshot_name : String) : Option String :=
  (snapshots.find? (fun p => p.1 = snapshot_name)).map (fun p => p.2)

/-- The fork-creation flow of `decorators.forked_from` (its `snapshot_name`
resolution wrapper around `TigrisFork`), with `get_snapshot_version_by_name`
modelled from the spec: reject mutually exclusive parameters before anything
else; resolve a truthy snapshot name by querying the source bucket's snapshot
list and fail with ValueError when the name is unknown; otherwise create the
bucket inside the fork scope. -/
def forked_from_run (snapshots : List (String × String))
    (source_bucket new_bucket : String)
    (snapshot_version snapshot_name : Option String) : ForkRun :=
  if truthy snapshot_version && truthy snapshot_name then
    ⟨[], .error (.valueError "Cannot specify both snapshot_version and snapshot_name")⟩
  else if truthy snapshot_name then
    match get_snapshot_version_by_name snapshots (snapshot_name.getD "") with
    | none =>
        ⟨[.listSnapshotsQuery source_bucket],
         .error (.valueError ("Snapshot with name '" ++ snapshot_name.getD "" ++
           "' not found in bucket '" ++ source_bucket ++ "'"))⟩
    | some v =>
        ⟨[.listSnapshotsQuery source_bucket,
          .createBucket new_bucket (forkHeaders source_bucket (some v))],
         .ok ()⟩
  else
    ⟨[.createBucket new_bucket (forkHeaders source_bucket snapshot_version)], .ok ()⟩

/-! ### Concrete instances used by witnesses and counterexamples -/

def injA : HeaderInjector := ⟨0, "before-sign.s3.GetObject", [("X", "1")]⟩

def injB : HeaderInjector := ⟨0, "before-sign.s3.GetObject", [("X", "2"), ("Y", "3")]⟩

/-- State after injector A and then injector B register on the same key. -/
def stateAB : RegState := run emptyState [Op.reg injA true, Op.reg injB true]

def injW1 : HeaderInjector := ⟨0, "ev", [("A", "1")]⟩

def injW2 : HeaderInjector := ⟨0, "ev", [("B", "2")]⟩

def opsW : List Op := [Op.reg injW1 true, Op.reg injW2 true, Op.unreg injW1 true]

def injsW : List HeaderInjector := [injW1, injW2]

/-- A registry state holding exactly one entry with reference count 1. -/
def stateOne : RegState :=
  ⟨setEntry emptyRegistry (0, "ev") (RegEntry.mk 0 1 [("A", "1")]),
   [⟨true, 0, "ev", 0⟩], 1⟩

/-- The five injectors of `TigrisSnapshot(client, "b", snapshot_version="v")`. -/
def snapInjs : List HeaderInjector := snapshotInjectors 0 "b" (some "v")

/-- The snapshot scope entered: all five injectors registered. -/
def snapEntered : RegState := run emptyState (regOps snapInjs)

/-- Exiting the snapshot scope when the second injector's external
`events.unregister` call raises. -/
def snapExit : Except RegState RegState :=
  exitScope (snapInjs.zip [true, false, true, true, true]) snapEntered

/-! ### Basic registry lemmas -/

theorem setEntry_self (r : Registry) (k : RegistryKey) (ent : RegEntry) :
    setEntry r k ent k = some ent := by
  simp [setEntry]

theorem setEntry_ne (r : Registry) (k k' : RegistryKey) (ent : RegEntry)
    (h : k' ≠ k) : setEntry r k ent k' = r k' := by
  simp [setEntry, h]

theorem removeEntry_self (r : Registry) (k : RegistryKey) :
    removeEntry r k k = none := by
  simp [removeEntry]

theorem removeEntry_ne (r : Registry) (k k' : RegistryKey) (h : k' ≠ k) :
    removeEntry r k k' = r k' := by
  simp [removeEntry, h]

/-! ### Branch characterizations of register / unregister -/

theorem registerE_present (inj : HeaderInjector) (ok : Bool) (s : RegState)
    (ent : RegEntry) (h : s.reg inj.registryKey = some ent) :
    ∃ t, registerE inj ok s = .ok t ∧
      t.reg = setEntry s.reg inj.registryKey
        (RegEntry.mk ent.handler (ent.refCount + 1) (dictUpdate ent.headers inj.headers)) ∧
      t.calls = s.calls ∧ t.nextHandler = s.nextHandler := by
  unfold registerE
  rw [h]
  exact ⟨_, rfl, rfl, rfl, rfl⟩

theorem registerE_absent_ok (inj : HeaderInjector) (s : RegState)
    (h : s.reg inj.registryKey = none) :
    ∃ t, registerE inj true s = .ok t ∧
      t.reg = setEntry s.reg inj.registryKey (RegEntry.mk s.nextHandler 1 inj.headers) ∧
      t.calls = s.calls ++ [⟨true, inj.clientId, inj.eventName, s.nextHandler⟩] ∧
      t.nextHandler = s.nextHandler + 1 := by
  unfold registerE
  rw [h]
  exact ⟨_, rfl, rfl, rfl, rfl⟩

theorem registerE_absent_fail (inj : HeaderInjector) (s : RegState)
    (h : s.reg inj.registryKey = none) :
    ∃ t, registerE inj false s = .error t ∧
      t.reg = s.reg ∧ t.calls = s.calls ∧ t.nextHandler = s.nextHandler + 1 := by
  unfold registerE
  rw [h]
  exact ⟨_, rfl, rfl, rfl, rfl⟩

theorem unregisterE_absent (inj : HeaderInjector) (ok : Bool) (s : RegState)
    (h : s.reg inj.registryKey = none) :
    unregisterE inj ok s = .ok s := by
  unfold unregisterE
  rw [h]

theorem unregisterE_decrement (inj : HeaderInjector) (ok : Bool) (s : RegState)
    (ent : RegEntry) (h : s.reg inj.registryKey = some ent)
    (hc : 1 < ent.refCount) :
    ∃ t, unregisterE inj ok s = .ok t ∧
      t.reg = setEntry s.reg inj.registryKey
        (RegEntry.mk ent.handler (ent.refCount - 1) ent.headers) ∧
      t.calls = s.calls ∧ t.nextHandler = s.nextHandler := by
  refine ⟨{ s with reg := setEntry s.reg inj.registryKey (RegEntry.mk ent.handler (ent.refCount - 1) ent.headers) }, ?_, rfl, rfl, rfl⟩
  unfold unregisterE
  rw [h]
  exact if_pos hc

theorem unregisterE_last_ok (inj : HeaderInjector) (s : RegState)
    (ent : RegEntry) (h : s.reg inj.registryKey = some ent)
    (hc : ¬ 1 < ent.refCount) :
    ∃ t, unregisterE inj true s = .ok t ∧
      t.reg = removeEntry s.reg inj.registryKey ∧
      t.calls = s.calls ++ [⟨false, inj.clientId, inj.eventName, ent.handler⟩] ∧
      t.nextHandler = s.nextHandler := by
  refine ⟨{ s with reg := removeEntry s.reg inj.registryKey, calls := s.calls ++ [⟨false, inj.clientId, inj.eventName, ent.handler⟩] }, ?_, rfl, rfl, rfl⟩
  unfold unregisterE
  rw [h]
  exact (if_neg hc).trans (if_pos rfl)

theorem unregisterE_last_fail (inj : HeaderInjector) (s : RegState)
    (ent : RegEntry) (h : s.reg inj.registryKey = some ent)
    (hc : ¬ 1 < ent.refCount) :
    unregisterE inj false s = .error s := by
  unfold unregisterE
  rw [h]
  exact (if_neg hc).trans (if_neg Bool.false_ne_true)

theorem run_nil (s : RegState) : run s [] = s := rfl

theorem run_cons (s : RegState) (op : Op) (ops : List Op) :
    run s (op :: ops) = run (step s op) ops := rfl

/-! ### Event-system trace lemmas -/

theorem eventSystemState_concat (calls : List EventsCall) (x : EventsCall) :
    eventSystemState (calls ++ [x]) =
      if x.isRegisterCall then
        eventSystemState calls ++ [(x.clientId, x.eventName, x.handler)]
      else removeOne (eventSystemState calls) (x.clientId, x.eventName, x.handler) := by
  simp [eventSystemState, List.foldl_append]

theorem keyFilter_append (c : Nat) (e : String) (l1 l2 : List (Nat × String × Nat)) :
    keyFilter c e (l1 ++ l2) = keyFilter c e l1 ++ keyFilter c e l2 := by
  simp [keyFilter, List.filter_append]

theorem installedFor_concat_reg (calls : List EventsCall) (c0 : Nat) (e0 : String)
    (hd : Nat) (c : Nat) (e : String) :
    installedFor (calls ++ [⟨true, c0, e0, hd⟩]) c e =
      installedFor calls c e ++ (if c0 = c ∧ e0 = e then [(c0, e0, hd)] else []) := by
  unfold installedFor
  rw [eventSystemState_concat]
  show keyFilter c e (eventSystemState calls ++ [(c0, e0, hd)]) = _
  rw [keyFilter_append]
  by_cases hce : c0 = c ∧ e0 = e
  · simp [keyFilter, hce]
  · simp [keyFilter, hce]

theorem installedFor_concat_unreg (calls : List EventsCall) (c0 : Nat) (e0 : String)
    (hd : Nat) (c : Nat) (e : String) :
    installedFor (calls ++ [⟨false, c0, e0, hd⟩]) c e =
      keyFilter c e (removeOne (eventSystemState calls) (c0, e0, hd)) := by
  unfold installedFor
  rw [eventSystemState_concat]
  rfl

theorem filter_removeOne_of_not (p : (Nat × String × Nat) → Bool)
    (l : List (Nat × String × Nat)) (t : Nat × String × Nat) (hp : p t = false) :
    (removeOne l t).filter p = l.filter p := by
  induction l with
  | nil => rfl
  | cons x rest ih =>
    by_cases hx : x = t
    · subst hx
      simp [removeOne, List.filter_cons, hp]
    · simp only [removeOne, if_neg hx, List.filter_cons]
      cases hpx : p x <;> simp [hpx, ih]

theorem filter_removeOne_of_single (p : (Nat × String × Nat) → Bool)
    (l : List (Nat × String × Nat)) (t : Nat × String × Nat)
    (hp : p t = true) (h : l.filter p = [t]) :
    (removeOne l t).filter p = [] := by
  induction l with
  | nil => simp at h
  | cons x rest ih =>
    by_cases hx : x = t
    · subst hx
      simp only [removeOne, if_pos rfl]
      rw [List.filter_cons, if_pos hp] at h
      simpa using h
    · simp only [removeOne, if_neg hx]
      rw [List.filter_cons] at h ⊢
      cases hpx : p x with
      | false =>
        rw [if_neg (by simp [hpx])] at h ⊢
        exact ih h
      | true =>
        rw [if_pos (by simp [hpx])] at h
        exact absurd (List.cons_eq_cons.mp h).1 hx

theorem keyFilter_removeOne_self (c : Nat) (e : String) (hd : Nat)
    (l : List (Nat × String × Nat)) (h : keyFilter c e l = [(c, e, hd)]) :
    keyFilter c e (removeOne l (c, e, hd)) = [] :=
  filter_removeOne_of_single _ l (c, e, hd) (decide_eq_true ⟨rfl, rfl⟩) h

theorem keyFilter_removeOne_ne (c : Nat) (e : String) (c0 : Nat) (e0 : String)
    (hd : Nat) (l : List (Nat × String × Nat)) (hne : ¬ (c0 = c ∧ e0 = e)) :
    keyFilter c e (removeOne l (c0, e0, hd)) = keyFilter c e l :=
  filter_removeOne_of_not _ l (c0, e0, hd) (decide_eq_false hne)

/-- Correspondence invariant between the registry and the external event
system: for each key, the callbacks attached to the event system are exactly
the single handler stored in the registry entry, when one exists, and none
otherwise. -/
def sysInv (s : RegState) : Prop :=
  ∀ c e, installedFor s.calls c e =
    (match s.reg (c, e) with
     | some ent => [(c, e, ent.handler)]
     | none => [])

theorem sysInv_empty : sysInv emptyState := fun _ _ => rfl

theorem sysInv_step (s : RegState) (op : Op) (h : sysInv s) : sysInv (step s op) := by
  cases op with
  | reg inj ok =>
    obtain ⟨ci, ev, ihs⟩ := inj
    rcases hreg : s.reg (ci, ev) with _ | ent
    · cases ok with
      | false =>
        obtain ⟨t, ht, hr, hcalls, _⟩ := registerE_absent_fail ⟨ci, ev, ihs⟩ s hreg
        have hstep : step s (Op.reg ⟨ci, ev, ihs⟩ false) = t := by
          simp [step, stepE, ht, runE]
        intro c e
        rw [hstep, hcalls, hr]
        exact h c e
      | true =>
        obtain ⟨t, ht, hr, hcalls, _⟩ := registerE_absent_ok ⟨ci, ev, ihs⟩ s hreg
        have hstep : step s (Op.reg ⟨ci, ev, ihs⟩ true) = t := by
          simp [step, stepE, ht, runE]
        intro c e
        rw [hstep, hcalls, hr, installedFor_concat_reg, h c e]
        by_cases hce : ci = c ∧ ev = e
        · obtain ⟨rfl, rfl⟩ := hce
          rw [hreg]
          simp [setEntry, HeaderInjector.registryKey]
        · have hne : (c, e) ≠ (ci, ev) := fun hcon =>
            hce ⟨(congrArg Prod.fst hcon).symm, (congrArg Prod.snd hcon).symm⟩
          simp [setEntry, HeaderInjector.registryKey, hne, hce]
    · obtain ⟨t, ht, hr, hcalls, _⟩ := registerE_present ⟨ci, ev, ihs⟩ ok s ent hreg
      have hstep : step s (Op.reg ⟨ci, ev, ihs⟩ ok) = t := by
        simp [step, stepE, ht, runE]
      intro c e
      rw [hstep, hcalls, hr, h c e]
      by_cases hce : ci = c ∧ ev = e
      · obtain ⟨rfl, rfl⟩ := hce
        rw [hreg]
        simp [setEntry, HeaderInjector.registryKey]
      · have hne : (c, e) ≠ (ci, ev) := fun hcon =>
          hce ⟨(congrArg Prod.fst hcon).symm, (congrArg Prod.snd hcon).symm⟩
        simp [setEntry, HeaderInjector.registryKey, hne]
  | unreg inj ok =>
    obtain ⟨ci, ev, ihs⟩ := inj
    rcases hreg : s.reg (ci, ev) with _ | ent
    · have hstep : step s (Op.unreg ⟨ci, ev, ihs⟩ ok) = s := by
        simp [step, stepE, unregisterE_absent ⟨ci, ev, ihs⟩ ok s hreg, runE]
      rw [hstep]
      exact h
    · by_cases hcnt : 1 < ent.refCount
      · obtain ⟨t, ht, hr, hcalls, _⟩ :=
          unregisterE_decrement ⟨ci, ev, ihs⟩ ok s ent hreg hcnt
        have hstep : step s (Op.unreg ⟨ci, ev, ihs⟩ ok) = t := by
          simp [step, stepE, ht, runE]
        intro c e
        rw [hstep, hcalls, hr, h c e]
        by_cases hce : ci = c ∧ ev = e
        · obtain ⟨rfl, rfl⟩ := hce
          rw [hreg]
          simp [setEntry, HeaderInjector.registryKey]
        · have hne : (c, e) ≠ (ci, ev) := fun hcon =>
            hce ⟨(congrArg Prod.fst hcon).symm, (congrArg Prod.snd hcon).symm⟩
          simp [setEntry, HeaderInjector.registryKey, hne]
      · cases ok with
        | false =>
          have hfail := unregisterE_last_fail ⟨ci, ev, ihs⟩ s ent hreg hcnt
          have hstep : step s (Op.unreg ⟨ci, ev, ihs⟩ false) = s := by
            simp [step, stepE, hfail, runE]
          rw [hstep]
          exact h
        | true =>
          obtain ⟨t, ht, hr, hcalls, _⟩ :=
            unregisterE_last_ok ⟨ci, ev, ihs⟩ s ent hreg hcnt
          have hstep : step s (Op.unreg ⟨ci, ev, ihs⟩ true) = t := by
            simp [step, stepE, ht, runE]
          intro c e
          rw [hstep, hcalls, hr, installedFor_concat_unreg]
          by_cases hce : ci = c ∧ ev = e
          · obtain ⟨rfl, rfl⟩ := hce
            have hsingle : keyFilter ci ev (eventSystemState s.calls) =
                [(ci, ev, ent.handler)] := by
              have hh := h ci ev
              rw [hreg] at hh
              exact hh
            rw [keyFilter_removeOne_self ci ev ent.handler _ hsingle]
            simp [removeEntry, HeaderInjector.registryKey]
          · have hne : (c, e) ≠ (ci, ev) := fun hcon =>
              hce ⟨(congrArg Prod.fst hcon).symm, (congrArg Prod.snd hcon).symm⟩
            rw [keyFilter_removeOne_ne c e ci ev ent.handler _ hce]
            have hh := h c e
            rw [show keyFilter c e (eventSystemState s.calls) =
              installedFor s.calls c e from rfl, hh]
            simp [removeEntry, HeaderInjector.registryKey, hne]

theorem sysInv_run (ops : List Op) (s : RegState) (h : sysInv s) :
    sysInv (run s ops) := by
  induction ops generalizing s with
  | nil => exact h
  | cons op rest ih => exact ih (step s op) (sysInv_step s op h)

/-! ### Reference-count accounting -/

theorem cnt_le_run (c : Nat) (e : String) (ops : List Op)
    (hkey : ∀ op ∈ ops, (Op.inj op).clientId = c ∧ (Op.inj op).eventName = e)
    (hok : ∀ op ∈ ops, Op.ok op = true) (s : RegState) :
    cnt s (c, e) + (ops.filter Op.isRegOp).length ≤
      cnt (run s ops) (c, e) + (ops.filter (fun op => !Op.isRegOp op)).length := by
  induction ops generalizing s with
  | nil => simp [run]
  | cons op rest ih =>
    have hkop := hkey op (List.mem_cons_self op rest)
    have hoop := hok op (List.mem_cons_self op rest)
    have hkrest : ∀ o ∈ rest, (Op.inj o).clientId = c ∧ (Op.inj o).eventName = e :=
      fun o ho => hkey o (List.mem_cons_of_mem op ho)
    have horest : ∀ o ∈ rest, Op.ok o = true :=
      fun o ho => hok o (List.mem_cons_of_mem op ho)
    rw [run_cons]
    have hrec := ih hkrest horest (step s op)
    cases op with
    | reg inj ok =>
      have hok1 : ok = true := hoop
      subst hok1
      have hk : inj.registryKey = (c, e) := by
        rcases hkop with ⟨h1, h2⟩
        simp [HeaderInjector.registryKey, Op.inj] at h1 h2
        simp [HeaderInjector.registryKey, h1, h2]
      have hstep : cnt (step s (Op.reg inj true)) (c, e) = cnt s (c, e) + 1 := by
        rcases hreg0 : s.reg (c, e) with _ | ent
        · have hreg : s.reg inj.registryKey = none := by rw [hk]; exact hreg0
          obtain ⟨t, ht, hr, _, _⟩ := registerE_absent_ok inj s hreg
          have hst : step s (Op.reg inj true) = t := by simp [step, stepE, ht, runE]
          rw [hst]
          simp [cnt, hr, hk, setEntry_self, hreg0]
        · have hreg : s.reg inj.registryKey = some ent := by rw [hk]; exact hreg0
          obtain ⟨t, ht, hr, _, _⟩ := registerE_present inj true s ent hreg
          have hst : step s (Op.reg inj true) = t := by simp [step, stepE, ht, runE]
          rw [hst]
          simp [cnt, hr, hk, setEntry_self, hreg0]
      rw [hstep] at hrec
      have hfa : ((Op.reg inj true :: rest).filter Op.isRegOp).length
          = (rest.filter Op.isRegOp).length + 1 := rfl
      have hfb : ((Op.reg inj true :: rest).filter (fun op => !Op.isRegOp op)).length
          = (rest.filter (fun op => !Op.isRegOp op)).length := rfl
      rw [hfa, hfb]
      omega
    | unreg inj ok =>
      have hok1 : ok = true := hoop
      subst hok1
      have hk : inj.registryKey = (c, e) := by
        rcases hkop with ⟨h1, h2⟩
        simp [HeaderInjector.registryKey, Op.inj] at h1 h2
        simp [HeaderInjector.registryKey, h1, h2]
      have hstep : cnt s (c, e) ≤ cnt (step s (Op.unreg inj true)) (c, e) + 1 := by
        rcases hreg0 : s.reg (c, e) with _ | ent
        · have hreg : s.reg inj.registryKey = none := by rw [hk]; exact hreg0
          have hst : step s (Op.unreg inj true) = s := by
            simp [step, stepE, unregisterE_absent inj true s hreg, runE]
          rw [hst]
          omega
        · have hreg : s.reg inj.registryKey = some ent := by rw [hk]; exact hreg0
          by_cases hcnt : 1 < ent.refCount
          · obtain ⟨t, ht, hr, _, _⟩ := unregisterE_decrement inj true s ent hreg hcnt
            have hst : step s (Op.unreg inj true) = t := by simp [step, stepE, ht, runE]
            rw [hst]
            have h1 : cnt s (c, e) = ent.refCount := by simp [cnt, hreg0]
            have h2 : cnt t (c, e) = ent.refCount - 1 := by
              simp [cnt, hr, hk, setEntry_self]
            omega
          · obtain ⟨t, ht, hr, _, _⟩ := unregisterE_last_ok inj s ent hreg hcnt
            have hst : step s (Op.unreg inj true) = t := by simp [step, stepE, ht, runE]
            rw [hst]
            have h1 : cnt s (c, e) = ent.refCount := by simp [cnt, hreg0]
            have h2 : cnt t (c, e) = 0 := by
              simp [cnt, hr, hk, removeEntry_self]
            omega
      have hfa : ((Op.unreg inj true :: rest).filter Op.isRegOp).length
          = (rest.filter Op.isRegOp).length := rfl
      have hfb : ((Op.unreg inj true :: rest).filter (fun op => !Op.isRegOp op)).length
          = (rest.filter (fun op => !Op.isRegOp op)).length + 1 := rfl
      rw [hfa, hfb]
      omega

/-- Entries are created with count 1, incremented while present, and removed
rather than stored at zero: every present entry has count at least 1. -/
def countInv (s : RegState) : Prop :=
  ∀ k ent, s.reg k = some ent → 1 ≤ ent.refCount

theorem countInv_step (s : RegState) (op : Op) (h : countInv s) :
    countInv (step s op) := by
  cases op with
  | reg inj ok =>
    rcases hreg : s.reg inj.registryKey with _ | ent
    · cases ok with
      | false =>
        obtain ⟨t, ht, hr, _, _⟩ := registerE_absent_fail inj s hreg
        have hst : step s (Op.reg inj false) = t := by simp [step, stepE, ht, runE]
        intro k ent2 hk2
        rw [hst, hr] at hk2
        exact h k ent2 hk2
      | true =>
        obtain ⟨t, ht, hr, _, _⟩ := registerE_absent_ok inj s hreg
        have hst : step s (Op.reg inj true) = t := by simp [step, stepE, ht, runE]
        intro k ent2 hk2
        rw [hst, hr] at hk2
        unfold setEntry at hk2
        by_cases hkk : k = inj.registryKey
        · rw [if_pos hkk] at hk2
          rw [← Option.some.inj hk2]
        · rw [if_neg hkk] at hk2
          exact h k ent2 hk2
    · obtain ⟨t, ht, hr, _, _⟩ := registerE_present inj ok s ent hreg
      have hst : step s (Op.reg inj ok) = t := by simp [step, stepE, ht, runE]
      intro k ent2 hk2
      rw [hst, hr] at hk2
      unfold setEntry at hk2
      by_cases hkk : k = inj.registryKey
      · rw [if_pos hkk] at hk2
        rw [← Option.some.inj hk2]
        exact Nat.le_add_left 1 ent.refCount
      · rw [if_neg hkk] at hk2
        exact h k ent2 hk2
  | unreg inj ok =>
    rcases hreg : s.reg inj.registryKey with _ | ent
    · have hst : step s (Op.unreg inj ok) = s := by
        simp [step, stepE, unregisterE_absent inj ok s hreg, runE]
      rw [hst]
      exact h
    · by_cases hcnt : 1 < ent.refCount
      · obtain ⟨t, ht, hr, _, _⟩ := unregisterE_decrement inj ok s ent hreg hcnt
        have hst : step s (Op.unreg inj ok) = t := by simp [step, stepE, ht, runE]
        intro k ent2 hk2
        rw [hst, hr] at hk2
        unfold setEntry at hk2
        by_cases hkk : k = inj.registryKey
        · rw [if_pos hkk] at hk2
          rw [← Option.some.inj hk2]
          show 1 ≤ ent.refCount - 1
          omega
        · rw [if_neg hkk] at hk2
          exact h k ent2 hk2
      · cases ok with
        | false =>
          have hfail := unregisterE_last_fail inj s ent hreg hcnt
          have hst : step s (Op.unreg inj false) = s := by
            simp [step, stepE, hfail, runE]
          rw [hst]
          exact h
        | true =>
          obtain ⟨t, ht, hr, _, _⟩ := unregisterE_last_ok inj s ent hreg hcnt
          have hst : step s (Op.unreg inj true) = t := by simp [step, stepE, ht, runE]
          intro k ent2 hk2
          rw [hst, hr] at hk2
          unfold removeEntry at hk2
          by_cases hkk : k = inj.registryKey
          · rw [if_pos hkk] at hk2
            exact Option.noConfusion hk2
          · rw [if_neg hkk] at hk2
            exact h k ent2 hk2

theorem countInv_run (ops : List Op) (s : RegState) (h : countInv s) :
    countInv (run s ops) := by
  induction ops generalizing s with
  | nil => exact h
  | cons op rest ih => exact ih (step s op) (countInv_step s op h)

theorem countInv_empty : countInv emptyState := by
  intro k ent hk
  simp [emptyState, emptyRegistry] at hk

/-! ### Balanced-lifecycle phase lemmas -/

theorem run_regOps_present (injs : List HeaderInjector) (c : Nat) (e : String) :
    ∀ (s : RegState) (ent : RegEntry),
    (∀ i ∈ injs, i.clientId = c ∧ i.eventName = e) →
    s.reg (c, e) = some ent →
    ∃ hd : HeaderMap,
      (run s (regOps injs)).reg (c, e) =
        some (RegEntry.mk ent.handler (ent.refCount + injs.length) hd) ∧
      (∀ k, k ≠ (c, e) → (run s (regOps injs)).reg k = s.reg k) ∧
      (run s (regOps injs)).calls = s.calls ∧
      (run s (regOps injs)).nextHandler = s.nextHandler := by
  induction injs with
  | nil =>
    intro s ent _ hs
    refine ⟨ent.headers, ?_, fun k _ => rfl, rfl, rfl⟩
    simpa using hs
  | cons i rest ih =>
    intro s ent hkey hs
    have hik := hkey i (List.mem_cons_self i rest)
    have hkk : i.registryKey = (c, e) := by
      rcases hik with ⟨h1, h2⟩
      simp [HeaderInjector.registryKey, h1, h2]
    have hreg : s.reg i.registryKey = some ent := by rw [hkk]; exact hs
    obtain ⟨t, ht, hr, hcalls, hnh⟩ := registerE_present i true s ent hreg
    have hst : step s (Op.reg i true) = t := by simp [step, stepE, ht, runE]
    have hrun : run s (regOps (i :: rest)) = run t (regOps rest) := by
      simp [regOps, run_cons, hst]
    have ht1 : t.reg (c, e) =
        some (RegEntry.mk ent.handler (ent.refCount + 1) (dictUpdate ent.headers i.headers)) := by
      rw [hr, hkk]
      exact setEntry_self ..
    obtain ⟨hd, ha, hb, hc2, hd2⟩ := ih t
      (RegEntry.mk ent.handler (ent.refCount + 1) (dictUpdate ent.headers i.headers))
      (fun j hj => hkey j (List.mem_cons_of_mem i hj)) ht1
    refine ⟨hd, ?_, ?_, ?_, ?_⟩
    · rw [hrun, ha]
      simp only [List.length_cons]
      congr 2
      omega
    · intro k hkne
      rw [hrun, hb k hkne, hr, hkk, setEntry_ne _ _ _ _ hkne]
    · rw [hrun, hc2, hcalls]
    · rw [hrun, hd2, hnh]

theorem run_regOps_absent (i : HeaderInjector) (rest : List HeaderInjector)
    (c : Nat) (e : String) (s : RegState)
    (hkey : ∀ j ∈ i :: rest, j.clientId = c ∧ j.eventName = e)
    (h0 : s.reg (c, e) = none) :
    ∃ hd : HeaderMap,
      (run s (regOps (i :: rest))).reg (c, e) =
        some (RegEntry.mk s.nextHandler (rest.length + 1) hd) ∧
      (∀ k, k ≠ (c, e) → (run s (regOps (i :: rest))).reg k = s.reg k) ∧
      (run s (regOps (i :: rest))).calls =
        s.calls ++ [⟨true, c, e, s.nextHandler⟩] ∧
      (run s (regOps (i :: rest))).nextHandler = s.nextHandler + 1 := by
  have hik := hkey i (List.mem_cons_self i rest)
  have hkk : i.registryKey = (c, e) := by
    rcases hik with ⟨h1, h2⟩
    simp [HeaderInjector.registryKey, h1, h2]
  have hreg : s.reg i.registryKey = none := by rw [hkk]; exact h0
  obtain ⟨t, ht, hr, hcalls, hnh⟩ := registerE_absent_ok i s hreg
  have hst : step s (Op.reg i true) = t := by simp [step, stepE, ht, runE]
  have hrun : run s (regOps (i :: rest)) = run t (regOps rest) := by
    simp [regOps, run_cons, hst]
  have ht1 : t.reg (c, e) = some (RegEntry.mk s.nextHandler 1 i.headers) := by
    rw [hr, hkk]
    exact setEntry_self ..
  obtain ⟨hd, ha, hb, hc2, hd2⟩ := run_regOps_present rest c e t
    (RegEntry.mk s.nextHandler 1 i.headers)
    (fun j hj => hkey j (List.mem_cons_of_mem i hj)) ht1
  refine ⟨hd, ?_, ?_, ?_, ?_⟩
  · rw [hrun, ha]
    show some (RegEntry.mk s.nextHandler (1 + rest.length) hd) =
      some (RegEntry.mk s.nextHandler (rest.length + 1) hd)
    rw [Nat.add_comm]
  · intro k hkne
    rw [hrun, hb k hkne, hr, hkk, setEntry_ne _ _ _ _ hkne]
  · rw [hrun, hc2, hcalls]
    rcases hik with ⟨h1c, h2c⟩
    rw [h1c, h2c]
  · rw [hrun, hd2, hnh]

theorem run_unregOps_drain (injs : List HeaderInjector) (c : Nat) (e : String) :
    ∀ (s : RegState) (ent : RegEntry),
    (∀ i ∈ injs, i.clientId = c ∧ i.eventName = e) →
    s.reg (c, e) = some ent →
    ent.refCount = injs.length →
    injs ≠ [] →
    (run s (unregOps injs)).reg (c, e) = none ∧
    (∀ k, k ≠ (c, e) → (run s (unregOps injs)).reg k = s.reg k) ∧
    (run s (unregOps injs)).calls = s.calls ++ [⟨false, c, e, ent.handler⟩] ∧
    (run s (unregOps injs)).nextHandler = s.nextHandler := by
  induction injs with
  | nil => intro s ent _ _ _ hne; exact absurd rfl hne
  | cons i rest ih =>
    intro s ent hkey hs hcount _
    have hik := hkey i (List.mem_cons_self i rest)
    have hkk : i.registryKey = (c, e) := by
      rcases hik with ⟨h1, h2⟩
      simp [HeaderInjector.registryKey, h1, h2]
    have hreg : s.reg i.registryKey = some ent := by rw [hkk]; exact hs
    rcases rest with _ | ⟨j, rest2⟩
    · have h1 : ent.refCount = 1 := by simpa using hcount
      have hnl : ¬ 1 < ent.refCount := by omega
      obtain ⟨t, ht, hr, hcalls, hnh⟩ := unregisterE_last_ok i s ent hreg hnl
      have hst : step s (Op.unreg i true) = t := by simp [step, stepE, ht, runE]
      have hrun : run s (unregOps [i]) = t := by
        simp [unregOps, run_cons, hst, run_nil]
      refine ⟨?_, ?_, ?_, ?_⟩
      · rw [hrun, hr, hkk]
        exact removeEntry_self ..
      · intro k hkne
        rw [hrun, hr, hkk, removeEntry_ne _ _ _ hkne]
      · rw [hrun, hcalls]
        rcases hik with ⟨h1c, h2c⟩
        rw [h1c, h2c]
      · rw [hrun, hnh]
    · have hlen : ent.refCount = rest2.length + 2 := by
        simpa [List.length_cons] using hcount
      have hgt : 1 < ent.refCount := by omega
      obtain ⟨t, ht, hr, hcalls, hnh⟩ := unregisterE_decrement i true s ent hreg hgt
      have hst : step s (Op.unreg i true) = t := by simp [step, stepE, ht, runE]
      have hrun : run s (unregOps (i :: j :: rest2)) = run t (unregOps (j :: rest2)) := by
        simp [unregOps, run_cons, hst]
      have ht1 : t.reg (c, e) =
          some (RegEntry.mk ent.handler (ent.refCount - 1) ent.headers) := by
        rw [hr, hkk]
        exact setEntry_self ..
      obtain ⟨ha, hb, hc2, hd2⟩ := ih t
        (RegEntry.mk ent.handler (ent.refCount - 1) ent.headers)
        (fun o ho => hkey o (List.mem_cons_of_mem i ho)) ht1
        (by simp only [List.length_cons]; omega) (by simp)
      refine ⟨?_, ?_, ?_, ?_⟩
      · rw [hrun, ha]
      · intro k hkne
        rw [hrun, hb k hkne, hr, hkk, setEntry_ne _ _ _ _ hkne]
      · rw [hrun, hc2, hcalls]
      · rw [hrun, hd2, hnh]

/-! ### Claim theorems -/

/-- C1: Single-registration invariant.  For every sequence of successful
`register()` / `unregister()` calls on injectors sharing one registry key,
at any prefix where the completed register calls outnumber the completed
unregister calls, exactly one callback is attached to the client's event
system for that key, namely the single handler stored in the registry
entry — `events.register` is invoked only by the first activation and never
again while the entry exists. -/
theorem single_registration_invariant (c : Nat) (e : String) (ops : List Op)
    (hkey : ∀ op ∈ ops, (Op.inj op).clientId = c ∧ (Op.inj op).eventName = e)
    (hok : ∀ op ∈ ops, Op.ok op = true) (n : Nat)
    (hcount : ((ops.take n).filter (fun op => !Op.isRegOp op)).length <
      ((ops.take n).filter Op.isRegOp).length) :
    ∃ ent, (run emptyState (ops.take n)).reg (c, e) = some ent ∧
      installedFor (run emptyState (ops.take n)).calls c e = [(c, e, ent.handler)] := by
  have hcle := cnt_le_run c e (ops.take n)
    (fun op hm => hkey op (List.take_subset n ops hm))
    (fun op hm => hok op (List.take_subset n ops hm)) emptyState
  have hzero : cnt emptyState (c, e) = 0 := rfl
  have hinv := sysInv_run (ops.take n) emptyState sysInv_empty
  rcases hent : (run emptyState (ops.take n)).reg (c, e) with _ | ent
  · exfalso
    have hc0 : cnt (run emptyState (ops.take n)) (c, e) = 0 := by simp [cnt, hent]
    omega
  · refine ⟨ent, rfl, ?_⟩
    have hh := hinv c e
    rw [hent] at hh
    exact hh

theorem single_registration_invariant_witness :
    ∃ ent, (run emptyState (opsW.take 3)).reg (0, "ev") = some ent ∧
      installedFor (run emptyState (opsW.take 3)).calls 0 "ev" =
        [(0, "ev", ent.handler)] :=
  single_registration_invariant 0 "ev" opsW (by decide) (by decide) 3 (by decide)

/-- C2: Balanced lifecycle round-trip.  Registering K injectors sharing one
key from a key-free registry and then unregistering the same K injectors in
any order leaves no entry for the key, leaves every other key untouched, and
drives exactly one `events.register` / `events.unregister` pair with the same
handler through the external event system. -/
theorem balanced_lifecycle (c : Nat) (e : String)
    (injs injs2 : List HeaderInjector) (s0 : RegState)
    (hkey : ∀ i ∈ injs, i.clientId = c ∧ i.eventName = e)
    (hperm : injs2.Perm injs) (hne : injs ≠ [])
    (h0 : s0.reg (c, e) = none) :
    (run (run s0 (regOps injs)) (unregOps injs2)).reg (c, e) = none ∧
    (∀ k, k ≠ (c, e) →
      (run (run s0 (regOps injs)) (unregOps injs2)).reg k = s0.reg k) ∧
    ∃ h, (run (run s0 (regOps injs)) (unregOps injs2)).calls =
      s0.calls ++ [⟨true, c, e, h⟩, ⟨false, c, e, h⟩] := by
  rcases injs with _ | ⟨i, rest⟩
  · exact absurd rfl hne
  obtain ⟨hd, ha, hb, hc2, hd2⟩ := run_regOps_absent i rest c e s0 hkey h0
  have hkey2 : ∀ j ∈ injs2, j.clientId = c ∧ j.eventName = e :=
    fun j hj => hkey j (hperm.subset hj)
  have hlen : injs2.length = rest.length + 1 := by
    rw [hperm.length_eq]
    simp [List.length_cons]
  have hne2 : injs2 ≠ [] := by
    intro hq
    rw [hq] at hlen
    simp at hlen
  obtain ⟨da, db, dc, dd⟩ := run_unregOps_drain injs2 c e
    (run s0 (regOps (i :: rest)))
    (RegEntry.mk s0.nextHandler (rest.length + 1) hd) hkey2 ha
    (by show rest.length + 1 = injs2.length; omega) hne2
  refine ⟨da, ?_, s0.nextHandler, ?_⟩
  · intro k hkne
    rw [db k hkne, hb k hkne]
  · rw [dc, hc2]
    simp [List.append_assoc]

theorem balanced_lifecycle_witness :
    (run (run emptyState (regOps injsW)) (unregOps injsW)).reg (0, "ev") = none ∧
    (∀ k, k ≠ (0, "ev") →
      (run (run emptyState (regOps injsW)) (unregOps injsW)).reg k =
        emptyState.reg k) ∧
    ∃ h, (run (run emptyState (regOps injsW)) (unregOps injsW)).calls =
      emptyState.calls ++ [⟨true, 0, "ev", h⟩, ⟨false, 0, "ev", h⟩] :=
  balanced_lifecycle 0 "ev" injsW injsW emptyState (by decide)
    (List.Perm.refl injsW) (by decide) rfl

/-- C3: Header merge is last-write-wins per header name.  After injector A
with header X=1 registers and injector B with headers X=2, Y=3 registers on
the same key, exactly one callback is installed, and invoking it on a request
writes X=2 (B's colliding value overwrites A's) and Y=3 (B's new key is
added) into the request's header mapping. -/
theorem header_merge_last_write_wins :
    installedFor stateAB.calls 0 "before-sign.s3.GetObject" =
      [(0, "before-sign.s3.GetObject", 0)] ∧
    dictGet (invokeInstalledHandler stateAB (0, "before-sign.s3.GetObject")
      [("Host", "example")]) "X" = some "2" ∧
    dictGet (invokeInstalledHandler stateAB (0, "before-sign.s3.GetObject")
      [("Host", "example")]) "Y" = some "3" := by
  decide

/-- C4: Registry bookkeeping is atomic with respect to external registration
failures.  If `events.register` raises during a first activation, the registry
is unchanged (no entry was committed); if `events.unregister` raises during a
last deactivation, the entry is neither deleted nor has its count changed. -/
theorem external_failure_atomicity (s : RegState) (inj : HeaderInjector) :
    (s.reg inj.registryKey = none →
      ∃ t, registerE inj false s = .error t ∧ ∀ k, t.reg k = s.reg k) ∧
    (∀ ent, s.reg inj.registryKey = some ent → ent.refCount ≤ 1 →
      unregisterE inj false s = .error s) := by
  constructor
  · intro h
    obtain ⟨t, ht, hr, _, _⟩ := registerE_absent_fail inj s h
    exact ⟨t, ht, fun k => by rw [hr]⟩
  · intro ent h hc
    exact unregisterE_last_fail inj s ent h (by omega)

theorem external_failure_atomicity_witness :
    (∃ t, registerE injW1 false emptyState = .error t ∧
      ∀ k, t.reg k = emptyState.reg k) ∧
    unregisterE injW1 false stateOne = .error stateOne :=
  ⟨(external_failure_atomicity emptyState injW1).1 rfl,
   (external_failure_atomicity stateOne injW1).2
     (RegEntry.mk 0 1 [("A", "1")]) rfl (by decide)⟩

/-- C8: Benign double-deactivation.  Calling `unregister()` when the
injector's key is absent from the registry returns normally and leaves the
whole process state, hence every other registry entry, unchanged. -/
theorem benign_double_deactivation (s : RegState) (inj : HeaderInjector)
    (ok : Bool) (h : s.reg inj.registryKey = none) :
    unregisterE inj ok s = .ok s :=
  unregisterE_absent inj ok s h

theorem benign_double_deactivation_witness :
    unregisterE injB true emptyState = .ok emptyState :=
  benign_double_deactivation emptyState injB true rfl

/-- C10: Implicit registry-count invariant.  After any finite sequence of
`register()` / `unregister()` calls (any keys, external calls succeeding or
failing), every entry present in the registry has reference count at least 1:
entries are created at 1, incremented while present, and deleted rather than
stored at zero. -/
theorem registry_count_positive (ops : List Op) (k : RegistryKey)
    (ent : RegEntry) (h : (run emptyState ops).reg k = some ent) :
    1 ≤ ent.refCount :=
  countInv_run ops emptyState countInv_empty k ent h

theorem registry_count_positive_witness :
    1 ≤ (RegEntry.mk 0 1 [("A", "1")]).refCount :=
  registry_count_positive [Op.reg injW1 true] (0, "ev")
    (RegEntry.mk 0 1 [("A", "1")]) rfl

/-- C5 (code evidence): `TigrisSnapshot.__exit__` is a plain loop with no
exception handling.  Exiting the five-injector snapshot scope when the second
injector's external `events.unregister` raises aborts the loop at once: the
first injector (ListBuckets) was unregistered, the failing one (GetObject)
stays registered, and the remaining three (ListObjectsV2, HeadObject,
ListObjects) are never attempted and stay registered — contradicting the
claim that every deactivation is attempted. -/
theorem snapshot_exit_aborts_on_failure :
    isErr snapExit = true ∧
    ((runE snapExit).reg (0, "before-sign.s3.GetObject")).isSome = true ∧
    ((runE snapExit).reg (0, "before-sign.s3.ListObjectsV2")).isSome = true ∧
    ((runE snapExit).reg (0, "before-sign.s3.HeadObject")).isSome = true ∧
    ((runE snapExit).reg (0, "before-sign.s3.ListObjects")).isSome = true ∧
    ((runE snapExit).reg (0, "before-sign.s3.ListBuckets")).isSome = false := by
  decide

/-- C6: Mutual exclusion of fork parameters.  The fork-creation flow invoked
with both snapshot_version "12345" and snapshot_name "backup" fails with the
`Cannot specify both` ValueError — a distinguishable input-validation error —
and performs no delegated storage operation at all. -/
theorem fork_params_mutual_exclusion (snapshots : List (String × String))
    (source_bucket new_bucket : String) :
    (forked_from_run snapshots source_bucket new_bucket
      (some "12345") (some "backup")).ops = [] ∧
    (forked_from_run snapshots source_bucket new_bucket
      (some "12345") (some "backup")).result =
      .error (.valueError "Cannot specify both snapshot_version and snapshot_name") := by
  constructor <;> rfl

/-- C7: Snapshot-name resolution failure.  Forking by a snapshot name that the
source bucket's snapshot list does not contain performs only the snapshot-list
query and fails with the not-found ValueError; the delegated bucket creation
is never invoked. -/
theorem fork_by_missing_name_no_creation (snapshots : List (String × String))
    (source_bucket new_bucket snapshot_name : String)
    (hname : snapshot_name ≠ "")
    (h : get_snapshot_version_by_name snapshots snapshot_name = none) :
    forked_from_run snapshots source_bucket new_bucket none (some snapshot_name) =
      ⟨[.listSnapshotsQuery source_bucket],
       .error (.valueError ("Snapshot with name '" ++ snapshot_name ++
         "' not found in bucket '" ++ source_bucket ++ "'"))⟩ ∧
    ∀ b hs, DelegatedOp.createBucket b hs ∉
      (forked_from_run snapshots source_bucket new_bucket none (some snapshot_name)).ops := by
  have htr : truthy (some snapshot_name) = true := by
    simp [truthy, hname]
  have hrun : forked_from_run snapshots source_bucket new_bucket none (some snapshot_name) =
      ⟨[.listSnapshotsQuery source_bucket],
       .error (.valueError ("Snapshot with name '" ++ snapshot_name ++
         "' not found in bucket '" ++ source_bucket ++ "'"))⟩ := by
    unfold forked_from_run
    rw [if_neg (by simp [truthy]), if_pos htr]
    simp only [Option.getD_some]
    rw [h]
  refine ⟨hrun, ?_⟩
  intro b hs
  rw [hrun]
  simp

theorem fork_by_missing_name_no_creation_witness :
    forked_from_run [("v1", "abc123")] "src" "dst" none (some "missing") =
      ⟨[.listSnapshotsQuery "src"],
       .error (.valueError ("Snapshot with name '" ++ "missing" ++
         "' not found in bucket '" ++ "src" ++ "'"))⟩ ∧
    ∀ b hs, DelegatedOp.createBucket b hs ∉
      (forked_from_run [("v1", "abc123")] "src" "dst" none (some "missing")).ops :=
  fork_by_missing_name_no_creation [("v1", "abc123")] "src" "dst" "missing"
    (by decide) rfl

/-- C9 (amended): Snapshot scope composition.  TigrisSnapshot always creates
the ListBuckets injector carrying X-Tigris-Snapshot = bucket name; exactly
when a non-empty (truthy) snapshot_version is supplied it additionally
creates one injector per read-style operation (GetObject, ListObjectsV2,
HeadObject, ListObjects), each carrying the single header
X-Tigris-Snapshot-Version = version; with no version, or an empty-string
version, only the ListBuckets injector exists. -/
theorem snapshot_scope_composition (clientId : Nat) (bucket : String)
    (version : Option String) :
    (snapshotInjectors clientId bucket version).head? =
      some ⟨clientId, "before-sign.s3.ListBuckets", [("X-Tigris-Snapshot", bucket)]⟩ ∧
    (∀ v, version = some v → v ≠ "" →
      snapshotInjectors clientId bucket version =
        [⟨clientId, "before-sign.s3.ListBuckets", [("X-Tigris-Snapshot", bucket)]⟩,
         ⟨clientId, "before-sign.s3.GetObject", [("X-Tigris-Snapshot-Version", v)]⟩,
         ⟨clientId, "before-sign.s3.ListObjectsV2", [("X-Tigris-Snapshot-Version", v)]⟩,
         ⟨clientId, "before-sign.s3.HeadObject", [("X-Tigris-Snapshot-Version", v)]⟩,
         ⟨clientId, "before-sign.s3.ListObjects", [("X-Tigris-Snapshot-Version", v)]⟩]) ∧
    ((version = none ∨ version = some "") →
      snapshotInjectors clientId bucket version =
        [⟨clientId, "before-sign.s3.ListBuckets", [("X-Tigris-Snapshot", bucket)]⟩]) := by
  refine ⟨?_, ?_, ?_⟩
  · cases htr : truthy version <;>
      simp [snapshotInjectors, htr, create_header_injector,
        create_multi_operation_injector, snapshot_ops]
  · intro v hv hne
    subst hv
    have htr : truthy (some v) = true := by simp [truthy, hne]
    simp [snapshotInjectors, htr, create_header_injector,
      create_multi_operation_injector, snapshot_ops]
  · intro hv
    have htr : truthy version = false := by
      rcases hv with rfl | rfl <;> simp [truthy]
    simp [snapshotInjectors, htr, create_header_injector]

theorem snapshot_scope_composition_witness :
    snapshotInjectors 0 "b" (some "v") =
      [⟨0, "before-sign.s3.ListBuckets", [("X-Tigris-Snapshot", "b")]⟩,
       ⟨0, "before-sign.s3.GetObject", [("X-Tigris-Snapshot-Version", "v")]⟩,
       ⟨0, "before-sign.s3.ListObjectsV2", [("X-Tigris-Snapshot-Version", "v")]⟩,
       ⟨0, "before-sign.s3.HeadObject", [("X-Tigris-Snapshot-Version", "v")]⟩,
       ⟨0, "before-sign.s3.ListObjects", [("X-Tigris-Snapshot-Version", "v")]⟩] ∧
    snapshotInjectors 1 "c" none =
      [⟨1, "before-sign.s3.ListBuckets", [("X-Tigris-Snapshot", "c")]⟩] :=
  ⟨(snapshot_scope_composition 0 "b" (some "v")).2.1 "v" rfl (by decide),
   (snapshot_scope_composition 1 "c" none).2.2 (Or.inl rfl)⟩

/-- C9 (counterexample): the claim as stated fails at snapshot_version = "".
The empty string is a supplied, non-None snapshot_version, yet TigrisSnapshot
treats it as falsy and creates only the ListBuckets injector — 1 injector
rather than the claimed 1 + 4. -/
theorem snapshot_scope_claim_fails_on_empty_version :
    ¬ (((some "" : Option String) ≠ none) →
        (snapshotInjectors 0 "b" (some "")).length = 5) := by
  decide
